import Mathlib

/-!
Verification of the feed-normalization routine (`parseRSS`) and the
query-mode state machine (`executeSearch`) of the news-briefing client.

The JavaScript string primitives used by the source are embedded over
`List Char` (one element per UTF-16 unit; every character that actually
occurs in the relevant strings is in the basic plane, so this is exact),
with `String` wrappers where convenient.  Fallible code is embedded in
`Except`, and the two external suspension points (feed fetch and the
synthesis service) are abstracted as an `Except`-valued outcome that is
threaded through the pipeline step.
-/

namespace Air

/-- Whitespace test matching the characters of the regex class `\s` that
occur in the data handled here (ASCII whitespace). -/
def wsChar (c : Char) : Bool :=
  c = ' ' || c = '\t' || c = '\n' || c = '\r'

/-- Model of `String.prototype.trim` (restricted to ASCII whitespace). -/
def trimChars (l : List Char) : List Char :=
  ((l.dropWhile wsChar).reverse.dropWhile wsChar).reverse

/-- Model of `s.split(" - ")`: left-to-right scan, non-overlapping
matches of the three-character separator. -/
def splitSepAux : List Char → List Char → List (List Char)
  | [], acc => [acc.reverse]
  | [c], acc => [(c :: acc).reverse]
  | [c, d], acc => [(d :: c :: acc).reverse]
  | c :: d :: e :: rest, acc =>
    if c = ' ' ∧ d = '-' ∧ e = ' ' then acc.reverse :: splitSepAux rest []
    else splitSepAux (d :: e :: rest) (c :: acc)

def splitSep (l : List Char) : List (List Char) :=
  splitSepAux l []

/-- Whether `" - "` occurs as a substring. -/
def hasSep : List Char → Bool
  | c :: d :: e :: rest => (c = ' ' && d = '-' && e = ' ') || hasSep (d :: e :: rest)
  | _ => false

/-- Model of `s.split("|")[0]`: the text before the first `'|'`, or the
whole string when there is none. -/
def beforePipe (l : List Char) : List Char :=
  l.takeWhile (fun c => c ≠ '|')

/-- Model of `s.replace(/\n/g, "")`. -/
def stripNewlines (l : List Char) : List Char :=
  l.filter (fun c => c ≠ '\n')

/-- Model of `s.split(/\s+/)` before merging of runs: split at every
single whitespace character. -/
def splitWsRawAux : List Char → List Char → List (List Char)
  | [], acc => [acc.reverse]
  | c :: rest, acc =>
    if wsChar c then acc.reverse :: splitWsRawAux rest []
    else splitWsRawAux rest (c :: acc)

def splitWsRaw (l : List Char) : List (List Char) :=
  splitWsRawAux l []

/-- Merge the pieces produced by consecutive whitespace characters: the
regex `\s+` consumes a whole run, so interior empty pieces disappear
while a leading or trailing empty piece is kept (JS semantics). -/
def dropMidEmpty : List (List Char) → List (List Char)
  | [] => []
  | [a] => [a]
  | a :: b :: rest =>
    if a = [] then dropMidEmpty (b :: rest) else a :: dropMidEmpty (b :: rest)

/-- Model of `s.split(/\s+/)`. -/
def splitWs (l : List Char) : List (List Char) :=
  match splitWsRaw l with
  | [] => []
  | a :: rest => a :: dropMidEmpty rest

/-- Model of `s.split(/\s+/).join(" ")`. -/
def collapseWs (l : List Char) : List Char :=
  List.intercalate [' '] (splitWs l)

/-- Model of `url.replace("https://", "")`: delete the first occurrence
(anywhere in the string), leave the rest unchanged. -/
def stripHttps : List Char → List Char
  | 'h' :: 't' :: 't' :: 'p' :: 's' :: ':' :: '/' :: '/' :: rest => rest
  | c :: rest => c :: stripHttps rest
  | [] => []

/-- Model of `url.replace("www.", "")`: delete the first occurrence. -/
def stripWww : List Char → List Char
  | 'w' :: 'w' :: 'w' :: '.' :: rest => rest
  | c :: rest => c :: stripWww rest
  | [] => []

/-- Model of `published.replace(" GMT", "")`: delete the first
occurrence. -/
def stripGMT : List Char → List Char
  | ' ' :: 'G' :: 'M' :: 'T' :: rest => rest
  | c :: rest => c :: stripGMT rest
  | [] => []

/-- The headline-cleaning pipeline of `parseRSS`, line for line:
`title.replace(/\n/g,"")`, then `.split(" - ").slice(0,-1).join(" ")`,
then `.split("|")[0].trim()`, then `.split(/\s+/).join(" ")`. -/
def newsHeadlineChars (t : List Char) : List Char :=
  collapseWs (trimChars (beforePipe
    (List.intercalate [' '] ((splitSep (stripNewlines t)).dropLast))))

def newsHeadlineOf (t : String) : String :=
  ⟨newsHeadlineChars t.data⟩

/-- The publisher derivation of `parseRSS`:
`publisher.replace("https://", "").replace("www.", "")`. -/
def publisherChars (url : List Char) : List Char :=
  stripWww (stripHttps url)

def publisherOf (url : String) : String :=
  ⟨publisherChars url.data⟩

/-! The record model of `parseRSS`.  A raw entry carries the three
fields the mapper reads (`entry?.source?.url`, `entry?.title`,
`entry?.pubDate`); each is `none` when absent from the markup.  A
`FeedRow` matches the source interface, except that `unixTime` is
`Option Int`: `none` embeds the JavaScript `NaN` produced by
`Math.floor(new Date(bad).getTime() / 1000)` on an unparsable date. -/

deriving instance DecidableEq for Except

structure RawEntry where
  sourceUrl : Option (List Char)
  title : Option (List Char)
  pubDate : Option (List Char)
deriving DecidableEq

structure FeedRow where
  unixTime : Option Int
  newsHeadline : List Char
  publisher : List Char
deriving DecidableEq

/-- The single runtime error the mapper can raise: reading `.replace`
from an `undefined` field.  It carries no entry position. -/
inductive JsError where
  | typeError
deriving DecidableEq

/-- A date-parsing oracle modelling `s => new Date(s).getTime()`:
`some ms` for a parsable date (epoch milliseconds), `none` for
`Invalid Date` (whose `getTime()` is `NaN`).  The concrete behaviour of
`new Date` on a string is host-defined, so it is a parameter. -/
def JsDate := List Char → Option Int

/-- The per-entry body of `entries.map` in `parseRSS`, in source order:
`publisher.replace(...)` throws on an absent source URL, the headline
pipeline throws on an absent title, `published.replace(...)` throws on
an absent publish date, and the date conversion never throws. -/
def parseEntry (jsDate : JsDate) (e : RawEntry) : Except JsError FeedRow :=
  match e.sourceUrl with
  | none => .error .typeError
  | some url =>
    match e.title with
    | none => .error .typeError
    | some t =>
      match e.pubDate with
      | none => .error .typeError
      | some d =>
        let publisher := publisherChars url
        let newsHeadline := newsHeadlineChars t
        let published := stripGMT d
        let unixTime := (jsDate (published ++ (" UTC").data)).map
          (fun ms => Int.fdiv ms 1000)
        .ok { unixTime := unixTime, newsHeadline := newsHeadline,
              publisher := publisher }

/-- `entries.map(cb)` with a throwing callback: the first throw aborts
the whole map, producing no rows. -/
def mapEntries (jsDate : JsDate) : List RawEntry → Except JsError (List FeedRow)
  | [] => .ok []
  | e :: rest =>
    match parseEntry jsDate e with
    | .error err => .error err
    | .ok r =>
      match mapEntries jsDate rest with
      | .error err => .error err
      | .ok rs => .ok (r :: rs)

/-- The comparison used by `parsed.sort((a, b) => b.unixTime - a.unixTime)`:
an element may stay before another exactly when the comparator is `≤ 0`.
When either operand is `NaN` the comparator returns `NaN`, which the
sort treats as `0` (keep order). -/
def rowLe (a b : FeedRow) : Bool :=
  match a.unixTime, b.unixTime with
  | some x, some y => decide (y ≤ x)
  | _, _ => true

/-- `parsed.sort(...)`: ECMAScript requires `Array.prototype.sort` to be
stable, so it is embedded as a stable merge sort over `rowLe`. -/
def sortRows (l : List FeedRow) : List FeedRow :=
  l.mergeSort rowLe

/-- The entry-list-to-records part of `parseRSS`: map each raw entry to
a row (aborting on the first throw), then sort by `unixTime`
descending.  An absent `<item>` list arrives here as `[]`. -/
def parseRSSRows (jsDate : JsDate) (entries : List RawEntry) :
    Except JsError (List FeedRow) :=
  (mapEntries jsDate entries).map sortRows

/-- Decidable form of "sorted non-increasing by timestamp": every later
row's timestamp is a defined value less than or equal to the earlier
row's defined value. -/
def tsGe (a b : FeedRow) : Bool :=
  match a.unixTime, b.unixTime with
  | some x, some y => decide (y ≤ x)
  | _, _ => false

def rowsSortedDesc (rows : List FeedRow) : Prop :=
  rows.Pairwise (fun a b => tsGe a b = true)

instance : DecidablePred rowsSortedDesc := fun rows =>
  List.instDecidablePairwise rows

/-! The conversation / session state machine of `App.tsx`.

`executeSearch` is embedded as one pipeline step: the state reads at
classification time use the pre-call state (the React closure values),
the writes are threaded sequentially in source order, and the awaited
external section (feed fetch and/or synthesis call) is abstracted as an
`Except String String` outcome — `.ok text` for a produced result,
`.error msg` for any throw inside the `try` block (relay failure,
malformed entry, synthesis failure).  The step records the state just
before the awaits (`pre`), the external call dispatched (`call`,
`none` when the invocation is a silent no-op), the resolved mode and
clean query, and the state after the `try/catch/finally` (`final`). -/

/-- String trim wrapper used by the classifier (`.trim()`). -/
def jsTrim (s : String) : String :=
  ⟨trimChars s.data⟩

/-- Model of `text.slice(1)` for the one-character markers used here. -/
def jsSlice1 (s : String) : String :=
  ⟨s.data.drop 1⟩

/-- First UTF-16 unit test: `text.startsWith(m)` for a one-character
marker `m`. -/
def headIs (c : Char) (s : String) : Bool :=
  decide (s.data.head? = some c)

/-- Interpolation of a possibly-null string into a template literal:
JavaScript renders `null` as the text `"null"`. -/
def jsStr : Option String → String
  | some s => s
  | none => "null"

inductive MsgType where
  | summary
  | question
  | answer
deriving DecidableEq

structure Msg where
  id : Nat
  type : MsgType
  text : String
  isUser : Bool
  initialQuery : Option String
deriving DecidableEq

structure AppState where
  conversation : List Msg
  isSearching : Bool
  lastQuery : Option String
  rootQuery : Option String
  isNewsSession : Bool
  isResultMode : Bool
  nextId : Nat
  query : String
deriving DecidableEq

inductive SearchMode where
  | general
  | merge
  | followup
  | rss
deriving DecidableEq

/-- The external awaited section dispatched by the pipeline, with the
data it is given. -/
inductive ExtCall where
  | generalCall (q : String)
  | answerCall (ctx q : String)
  | mergeCall (ctx q : String)
  | rssCall (q : String)
deriving DecidableEq

/-- The `summaryText` selector: text of the most recent message with
`type === "summary"` whose `initialQuery` starts with the news icon,
defaulting to the empty string. -/
def summaryTextOf (conversation : List Msg) : String :=
  match conversation.reverse.find? (fun m =>
      decide (m.type = MsgType.summary) &&
      (match m.initialQuery with
       | some q => headIs '📰' q
       | none => false)) with
  | some m => m.text
  | none => ""

/-- `addMsg`: append a message built with `id := nextId.current++`. -/
def addMsg (s : AppState) (type : MsgType) (text : String)
    (isUser : Bool) (initialQuery : Option String) : AppState :=
  { s with
    conversation := s.conversation ++
      [{ id := s.nextId, type := type, text := text, isUser := isUser,
         initialQuery := initialQuery }],
    nextId := s.nextId + 1 }

structure StepOut where
  pre : AppState
  call : Option ExtCall
  mode : Option SearchMode
  clean : String
  final : AppState
deriving DecidableEq

/-- The mode-dependent UI update of `executeSearch`: a question bubble
for followup / merge / general, the optimistic clear for a new-topic
rss query. -/
def uiUpdate (s3 : AppState) (clean : String) (forceNew : Bool) :
    SearchMode → AppState
  | .followup => addMsg s3 .question ("📰 " ++ clean) true none
  | .merge =>
      addMsg s3 .question ("➕ Adding \"" ++ clean ++ "\"...") true none
  | .rss => if forceNew then s3 else { s3 with conversation := [] }
  | .general => addMsg s3 .question ("🔍 " ++ clean) true none

/-- The topic bookkeeping of `executeSearch`: rss and merge set
`lastQuery`; only rss (not merge) sets `rootQuery`. -/
def applyTopics (s4 : AppState) (label clean : String) :
    SearchMode → AppState
  | .rss => { s4 with lastQuery := some label, rootQuery := some clean }
  | .merge => { s4 with lastQuery := some label }
  | .followup => s4
  | .general => s4

/-- The external awaited section chosen by the mode. -/
def mkCall (ctx clean : String) : SearchMode → ExtCall
  | .general => .generalCall clean
  | .followup => .answerCall ctx clean
  | .merge => .mergeCall ctx clean
  | .rss => .rssCall clean

/-- The `try/catch/finally` tail of `executeSearch`: on success build
the result message and either replace the whole conversation (refresh
or rss) or append; on error append one error message; clear the busy
lock on both paths. -/
def applyOutcome (s5 : AppState) (mode : SearchMode)
    (currentCleanQuery : String) (forceNew : Bool) :
    Except String String → AppState
  | .ok result =>
    let newMessage : Msg :=
      { id := s5.nextId,
        type := if mode = .followup then .answer else .summary,
        text := result, isUser := false,
        initialQuery := some
          ((if mode = .general then "🔍 " else "📰 ") ++
            currentCleanQuery) }
    if forceNew = true ∨ mode = .rss then
      { s5 with conversation := [newMessage], nextId := s5.nextId + 1,
                isSearching := false }
    else
      { addMsg s5 newMessage.type newMessage.text false
          newMessage.initialQuery with isSearching := false }
  | .error msg =>
    { addMsg s5 .answer ("⚠️ Error: " ++ msg) false none with
        isSearching := false }

/-- The body of `executeSearch` after the busy/empty guards have
passed and the mode and clean query have been resolved: the pre-await
state updates, the external call, and the `try/catch/finally`
result handling.  `s` is the pre-call state (the React closure). -/
def mainStep (s : AppState) (clean : String) (mode : SearchMode)
    (forceNew : Bool) (outcome : Except String String) : StepOut :=
  let s1 := { s with isSearching := true, query := "" }
  let s2 := { s1 with isResultMode := true }
  let s3 := if mode = SearchMode.rss then { s2 with isNewsSession := true }
    else s2
  let s4 := uiUpdate s3 clean forceNew mode
  let currentCleanQuery :=
    if mode = .merge then jsStr s.lastQuery ++ " + " ++ clean else clean
  let s5 := applyTopics s4 currentCleanQuery clean mode
  let call := mkCall (summaryTextOf s.conversation) clean mode
  ⟨s5, some call, some mode, clean,
    applyOutcome s5 mode currentCleanQuery forceNew outcome⟩

/-- One invocation of `executeSearch(text, forceNew)` from pre-call
state `s`, with the awaited external section resolving to `outcome`. -/
def executeSearch (s : AppState) (text : String) (forceNew : Bool)
    (outcome : Except String String) : StepOut :=
  if text = "" ∨ s.isSearching = true then
    ⟨s, none, none, "", s⟩
  else
    let s1 := { s with isSearching := true, query := "" }
    let isGeneral := headIs '~' text
    let isMerge := headIs '+' text && !s.conversation.isEmpty &&
      s.isNewsSession
    let clean := jsTrim (if isMerge || isGeneral then jsSlice1 text else text)
    if clean = "" then
      ⟨{ s1 with isSearching := false }, none, none, clean,
        { s1 with isSearching := false }⟩
    else
      let mode : SearchMode :=
        if isGeneral then .general
        else if isMerge then .merge
        else if !s.conversation.isEmpty && !forceNew && s.isNewsSession
          then .followup
        else .rss
      mainStep s clean mode forceNew outcome

/-! Shared lemmas about the character-level string primitives. -/

theorem char_ne_space_of_no_ws {c : Char} (h : wsChar c = false) : c ≠ ' ' := by
  intro hEq
  rw [hEq] at h
  simp [wsChar] at h

theorem char_ne_newline_of_no_ws {c : Char} (h : wsChar c = false) :
    c ≠ '\n' := by
  intro hEq
  rw [hEq] at h
  simp [wsChar] at h

theorem splitSepAux_no_sep : ∀ (l acc : List Char), hasSep l = false →
    splitSepAux l acc = [acc.reverse ++ l]
  | [], acc, _ => by simp [splitSepAux]
  | [c], acc, _ => by simp [splitSepAux]
  | [c, d], acc, _ => by simp [splitSepAux]
  | c :: d :: e :: rest, acc, h => by
    rw [hasSep] at h
    simp only [Bool.or_eq_false_iff, Bool.and_eq_false_iff,
      decide_eq_false_iff_not] at h
    rw [splitSepAux, if_neg]
    · rw [splitSepAux_no_sep (d :: e :: rest) (c :: acc) h.2]
      simp
    · intro hcon
      rcases hcon with ⟨h1, h2, h3⟩
      tauto

theorem hasSep_of_no_ws : ∀ (l : List Char), (∀ c ∈ l, wsChar c = false) →
    hasSep l = false
  | [], _ => rfl
  | [c], _ => rfl
  | [c, d], _ => rfl
  | c :: d :: e :: rest, h => by
    have hc := char_ne_space_of_no_ws (h c (by simp))
    have hrec := hasSep_of_no_ws (d :: e :: rest)
      (fun x hx => h x (List.mem_cons_of_mem _ hx))
    rw [hasSep, hrec, Bool.or_false]
    simp [hc]

theorem splitSepAux_seg (p : List Char) : ∀ (rest acc : List Char),
    (∀ c ∈ p, wsChar c = false) →
    splitSepAux (p ++ ' ' :: '-' :: ' ' :: rest) acc =
      (acc.reverse ++ p) :: splitSepAux rest [] := by
  induction p with
  | nil =>
    intro rest acc _
    simp only [List.nil_append]
    rw [splitSepAux, if_pos ⟨rfl, rfl, rfl⟩]
    simp
  | cons a p' ih =>
    intro rest acc h
    have ha : a ≠ ' ' := char_ne_space_of_no_ws (h a (by simp))
    have h' : ∀ c ∈ p', wsChar c = false :=
      fun c hc => h c (List.mem_cons_of_mem _ hc)
    have step := ih rest (a :: acc) h'
    rcases p' with _ | ⟨b, _ | ⟨c', p''⟩⟩ <;>
      simp only [List.cons_append, List.nil_append] at step ⊢ <;>
      rw [splitSepAux, if_neg (fun hcon => ha hcon.1), step] <;>
      simp

theorem splitSep_three (p q r : List Char)
    (hp : ∀ c ∈ p, wsChar c = false) (hq : ∀ c ∈ q, wsChar c = false)
    (hr : ∀ c ∈ r, wsChar c = false) :
    splitSep (p ++ ' ' :: '-' :: ' ' :: (q ++ ' ' :: '-' :: ' ' :: r)) =
      [p, q, r] := by
  unfold splitSep
  rw [splitSepAux_seg p _ [] hp]
  rw [splitSepAux_seg q _ [] hq]
  rw [splitSepAux_no_sep r [] (hasSep_of_no_ws r hr)]
  simp

theorem takeWhile_no_pipe (l : List Char) (h : ∀ c ∈ l, c ≠ '|') :
    beforePipe l = l := by
  unfold beforePipe
  induction l with
  | nil => rfl
  | cons a t ih =>
    rw [List.takeWhile_cons_of_pos, ih (fun c hc => h c (by simp [hc]))]
    simp [h a (by simp)]

theorem trim_mid (p q : List Char) (hp : ∀ c ∈ p, wsChar c = false)
    (hq : ∀ c ∈ q, wsChar c = false) (hpn : p ≠ []) (hqn : q ≠ []) :
    trimChars (p ++ ' ' :: q) = p ++ ' ' :: q := by
  rcases p with _ | ⟨a, p'⟩
  · exact absurd rfl hpn
  rcases hq' : q.reverse with _ | ⟨b, q''⟩
  · exact absurd (by simpa using congrArg List.reverse hq') hqn
  have hb : wsChar b = false := hq b (by
    have : b ∈ q.reverse := by rw [hq']; exact List.mem_cons_self _ _
    simpa using this)
  have ha : wsChar a = false := hp a (by simp)
  unfold trimChars
  have e1 : List.dropWhile wsChar ((a :: p') ++ ' ' :: q)
      = (a :: p') ++ ' ' :: q := by
    rw [show ((a :: p') ++ ' ' :: q : List Char) = a :: (p' ++ ' ' :: q) from
      by simp]
    rw [List.dropWhile_cons_of_neg (by simp [ha])]
  rw [e1]
  have e2 : ((a :: p') ++ ' ' :: q).reverse
      = b :: (q'' ++ ' ' :: p'.reverse ++ [a]) := by
    simp [hq', List.append_assoc]
  rw [e2, List.dropWhile_cons_of_neg (by simp [hb]), ← e2]
  simp

theorem splitWsRawAux_no_ws : ∀ (l acc : List Char),
    (∀ c ∈ l, wsChar c = false) → splitWsRawAux l acc = [acc.reverse ++ l]
  | [], acc, _ => by simp [splitWsRawAux]
  | a :: t, acc, h => by
    rw [splitWsRawAux, if_neg (by simp [h a (by simp)])]
    rw [splitWsRawAux_no_ws t (a :: acc) (fun c hc => h c (by simp [hc]))]
    simp

theorem splitWsRawAux_seg (p : List Char) : ∀ (rest acc : List Char),
    (∀ c ∈ p, wsChar c = false) →
    splitWsRawAux (p ++ ' ' :: rest) acc =
      (acc.reverse ++ p) :: splitWsRawAux rest [] := by
  induction p with
  | nil =>
    intro rest acc _
    simp only [List.nil_append]
    rw [splitWsRawAux, if_pos (by simp [wsChar])]
    simp
  | cons a p' ih =>
    intro rest acc h
    rw [List.cons_append, splitWsRawAux, if_neg (by simp [h a (by simp)])]
    rw [ih rest (a :: acc) (fun c hc => h c (List.mem_cons_of_mem _ hc))]
    simp

theorem collapse_mid (p q : List Char) (hp : ∀ c ∈ p, wsChar c = false)
    (hq : ∀ c ∈ q, wsChar c = false) (hqn : q ≠ []) :
    collapseWs (p ++ ' ' :: q) = p ++ ' ' :: q := by
  unfold collapseWs splitWs splitWsRaw
  rw [splitWsRawAux_seg p q [] hp, splitWsRawAux_no_ws q [] hq]
  rcases q with _ | ⟨b, q'⟩
  · exact absurd rfl hqn
  simp [dropMidEmpty, List.intercalate, List.intersperse]

theorem newsHeadlineChars_no_sep (t : List Char)
    (h : hasSep (stripNewlines t) = false) : newsHeadlineChars t = [] := by
  unfold newsHeadlineChars splitSep
  rw [splitSepAux_no_sep _ _ h]
  simp [beforePipe, trimChars, collapseWs, splitWs, splitWsRaw, splitWsRawAux,
    dropMidEmpty, List.intercalate, List.intersperse]

/-- C1, amended.  The source computes
`title.replace(/\n/g, "").split(" - ").slice(0, -1).join(" ")` and then
cuts at the first `"|"`, trims and collapses whitespace.  So (1) a title
whose newline-stripped form contains no `" - "` yields an *empty*
headline (every segment but the last is kept, and there is only one),
and (2) a title of the form `p - q - r` (with `p`, `q`, `r` free of
whitespace and `"|"`) yields `p q`: everything from the last separator
onward is excluded, but the earlier separator is replaced by a single
space rather than left unchanged. -/
theorem newsHeadline_amended :
    (∀ t : List Char, hasSep (stripNewlines t) = false →
      newsHeadlineChars t = []) ∧
    (∀ p q r : List Char, p ≠ [] → q ≠ [] →
      (∀ c ∈ p ++ q ++ r, wsChar c = false ∧ c ≠ '|') →
      newsHeadlineChars
          (p ++ ' ' :: '-' :: ' ' :: (q ++ ' ' :: '-' :: ' ' :: r))
        = p ++ ' ' :: q) := by
  constructor
  · exact newsHeadlineChars_no_sep
  · intro p q r hpn hqn hok
    have hp : ∀ c ∈ p, wsChar c = false := fun c hc => (hok c (by simp [hc])).1
    have hq : ∀ c ∈ q, wsChar c = false := fun c hc => (hok c (by simp [hc])).1
    have hr : ∀ c ∈ r, wsChar c = false := fun c hc => (hok c (by simp [hc])).1
    have hppipe : ∀ c ∈ p, c ≠ '|' := fun c hc => (hok c (by simp [hc])).2
    have hqpipe : ∀ c ∈ q, c ≠ '|' := fun c hc => (hok c (by simp [hc])).2
    unfold newsHeadlineChars
    have hnl : stripNewlines
        (p ++ ' ' :: '-' :: ' ' :: (q ++ ' ' :: '-' :: ' ' :: r))
        = p ++ ' ' :: '-' :: ' ' :: (q ++ ' ' :: '-' :: ' ' :: r) := by
      unfold stripNewlines
      rw [List.filter_eq_self]
      intro c hc
      have hmem : c ∈ p ∨ c ∈ q ∨ c ∈ r ∨ c = ' ' ∨ c = '-' := by
        simp only [List.mem_append, List.mem_cons] at hc
        tauto
      rcases hmem with h1 | h1 | h1 | h1 | h1
      · simp [char_ne_newline_of_no_ws (hp c h1)]
      · simp [char_ne_newline_of_no_ws (hq c h1)]
      · simp [char_ne_newline_of_no_ws (hr c h1)]
      · simp [h1]
      · simp [h1]
    rw [hnl, splitSep_three p q r hp hq hr]
    rw [show ([p, q, r].dropLast : List (List Char)) = [p, q] from rfl]
    rw [show (List.intercalate [' '] [p, q] : List Char) = p ++ ' ' :: q from
      by simp [List.intercalate, List.intersperse]]
    rw [takeWhile_no_pipe _ (by
      intro c hc
      have hmem : c ∈ p ∨ c ∈ q ∨ c = ' ' := by
        simp only [List.mem_append, List.mem_cons] at hc
        tauto
      rcases hmem with h1 | h1 | h1
      · exact hppipe c h1
      · exact hqpipe c h1
      · simp [h1])]
    rw [trim_mid p q hp hq hpn hqn]
    exact collapse_mid p q hp hq hqn

/-- C1, counterexample to the claim as stated: on the title
`"A - B - C"` the claim prescribes truncation at the *last* `" - "`
with the text before it otherwise unchanged, i.e. `"A - B"`; the code
produces `"A B"`. -/
theorem newsHeadline_claim_cex :
    newsHeadlineOf "A - B - C" = "A B" ∧
    newsHeadlineOf "A - B - C" ≠ "A - B" := by
  constructor
  · decide
  · decide

/-- Witness for `newsHeadline_amended` at concrete inputs. -/
theorem newsHeadline_amended_witness :
    newsHeadlineChars ("No separator".data) = [] ∧
    newsHeadlineChars ("Tech".data ++ ' ' :: '-' :: ' ' ::
        ("Giants".data ++ ' ' :: '-' :: ' ' :: "Site".data))
      = "Tech".data ++ ' ' :: "Giants".data :=
  ⟨newsHeadline_amended.1 _ (by decide),
   newsHeadline_amended.2 _ _ _ (by decide) (by decide) (by decide)⟩

/-- C9, amended.  The publisher is the raw source URL with the first
occurrence of `"https://"` deleted and then the first occurrence of
`"www."` deleted — nothing else: no trimming and no path stripping.
For a URL of the shape `https://<rest>` the publisher is `<rest>` with
its first `"www."` deleted; in particular for `https://www.<rest>` it
is `<rest>` verbatim, including any path. -/
theorem publisher_amended : ∀ rest : List Char,
    publisherChars ("https://".data ++ rest) = stripWww rest ∧
    publisherChars ("https://www.".data ++ rest) = rest := by
  intro rest
  constructor
  · show publisherChars ('h' :: 't' :: 't' :: 'p' :: 's' :: ':' :: '/' ::
      '/' :: rest) = stripWww rest
    simp [publisherChars, stripHttps]
  · show publisherChars ('h' :: 't' :: 't' :: 'p' :: 's' :: ':' :: '/' ::
      '/' :: 'w' :: 'w' :: 'w' :: '.' :: rest) = rest
    simp [publisherChars, stripHttps, stripWww]

/-- C9, counterexample to the claim as stated: no path component is
removed (the publisher keeps `"/path"`), and a URL with a doubled
`"www."` prefix yields a publisher that still begins with `"www."`. -/
theorem publisher_claim_cex :
    publisherOf "https://www.example.com/path" = "example.com/path" ∧
    '/' ∈ (publisherOf "https://www.example.com/path").data ∧
    publisherOf "www.www.example.com" = "www.example.com" := by
  refine ⟨by decide, by decide, by decide⟩

/-! C2: which inputs make the entry mapper fail. -/

theorem parseEntry_ok_iff (jsDate : JsDate) (e : RawEntry) :
    (∃ r, parseEntry jsDate e = .ok r) ↔
      e.sourceUrl ≠ none ∧ e.title ≠ none ∧ e.pubDate ≠ none := by
  rcases e with ⟨u, t, d⟩
  rcases u with _ | u <;> rcases t with _ | t <;> rcases d with _ | d <;>
    simp [parseEntry]

theorem mapEntries_ok_iff (jsDate : JsDate) : ∀ (entries : List RawEntry),
    (∃ l, mapEntries jsDate entries = .ok l) ↔
      ∀ e ∈ entries, e.sourceUrl ≠ none ∧ e.title ≠ none ∧ e.pubDate ≠ none
  | [] => by simp [mapEntries]
  | e :: rest => by
    constructor
    · rintro ⟨l, hl⟩
      rw [mapEntries] at hl
      rcases hpe : parseEntry jsDate e with err | r <;> rw [hpe] at hl
      · cases hl
      rcases hme : mapEntries jsDate rest with err2 | rs <;> rw [hme] at hl
      · cases hl
      intro x hx
      rcases List.mem_cons.mp hx with hx | hx
      · subst hx
        exact (parseEntry_ok_iff jsDate x).mp ⟨r, hpe⟩
      · exact ((mapEntries_ok_iff jsDate rest).mp ⟨rs, hme⟩) x hx
    · intro hall
      rcases (parseEntry_ok_iff jsDate e).mpr (hall e (by simp)) with ⟨r, hr⟩
      rcases (mapEntries_ok_iff jsDate rest).mpr
        (fun x hx => hall x (List.mem_cons_of_mem _ hx)) with ⟨rs, hrs⟩
      exact ⟨r :: rs, by rw [mapEntries, hr, hrs]⟩

theorem parseRSSRows_ok_iff (jsDate : JsDate) (entries : List RawEntry) :
    (∃ rows, parseRSSRows jsDate entries = .ok rows) ↔
      ∀ e ∈ entries, e.sourceUrl ≠ none ∧ e.title ≠ none ∧ e.pubDate ≠ none := by
  unfold parseRSSRows
  constructor
  · rintro ⟨rows, h⟩
    rcases hme : mapEntries jsDate entries with err | l <;> rw [hme] at h
    · simp [Except.map] at h
    · exact (mapEntries_ok_iff _ _).mp ⟨l, hme⟩
  · intro hall
    rcases (mapEntries_ok_iff jsDate entries).mpr hall with ⟨l, hl⟩
    exact ⟨sortRows l, by rw [hl]; rfl⟩

/-- C2, amended.  An empty (or absent, i.e. defaulted-to-empty) entry
list yields an empty output, not an error.  The mapper fails — with a
generic `TypeError` carrying no entry position — exactly when some
entry lacks its source URL, title, or publish-date string, aborting the
whole map with no rows.  An *unparsable* publish date does not fail:
the entry still produces a row, whose timestamp is `NaN` (here `none`). -/
theorem parseRSS_errors_amended :
    (∀ jsDate : JsDate, parseRSSRows jsDate [] = .ok []) ∧
    (∀ (jsDate : JsDate) (entries : List RawEntry),
      (∃ rows, parseRSSRows jsDate entries = .ok rows) ↔
        ∀ e ∈ entries,
          e.sourceUrl ≠ none ∧ e.title ≠ none ∧ e.pubDate ≠ none) ∧
    (∀ (jsDate : JsDate) (url t d : List Char),
      jsDate (stripGMT d ++ (" UTC").data) = none →
      parseEntry jsDate ⟨some url, some t, some d⟩ =
        .ok ⟨none, newsHeadlineChars t, publisherChars url⟩) := by
  refine ⟨?_, parseRSSRows_ok_iff, ?_⟩
  · intro jsDate
    unfold parseRSSRows
    rw [show mapEntries jsDate [] = .ok [] from rfl]
    simp [Except.map, sortRows]
  intro jsDate url t d h
  simp [parseEntry, h]

/-- C2, counterexample to the claim as stated: an entry whose publish
date is unparsable (the date oracle returns `NaN` on every string) does
*not* fail with any error; it yields a row with a `NaN` timestamp. -/
theorem parseRSS_claim_cex :
    parseRSSRows (fun _ => none)
        [⟨some "https://ex.com".data, some "Headline - Site".data,
          some "not a date".data⟩]
      = .ok [⟨none, "Headline".data, "ex.com".data⟩] := by
  have h1 : mapEntries (fun _ => none)
      [⟨some "https://ex.com".data, some "Headline - Site".data,
        some "not a date".data⟩]
      = .ok [⟨none, "Headline".data, "ex.com".data⟩] := by decide
  unfold parseRSSRows
  rw [h1]
  simp [Except.map, sortRows]

/-- Witness for `parseRSS_errors_amended` at concrete inputs. -/
theorem parseRSS_errors_witness :
    parseRSSRows (fun _ => some 0) [] = .ok [] ∧
    (∃ rows, parseRSSRows (fun _ => some 0)
        [⟨some "u".data, some "t".data, some "d".data⟩] = .ok rows) ∧
    parseEntry (fun _ => none) ⟨some "u".data, some "t".data, some "d".data⟩
      = .ok ⟨none, newsHeadlineChars "t".data, publisherChars "u".data⟩ :=
  ⟨parseRSS_errors_amended.1 _,
   (parseRSS_errors_amended.2.1 (fun _ => some 0) _).mpr (by decide),
   parseRSS_errors_amended.2.2 _ _ _ _ rfl⟩

/-! C3: ordering and stability of the sort. -/

theorem sortRows_pair (a b : FeedRow) :
    sortRows [a, b] = if rowLe a b then [a, b] else [b, a] := by
  unfold sortRows
  rw [List.mergeSort]
  simp [List.splitInTwo, List.splitAt, List.splitAt.go, List.merge]

theorem rowLeD_trans : ∀ a b c : {r : FeedRow // r.unixTime ≠ none},
    rowLe a.val b.val → rowLe b.val c.val → rowLe a.val c.val := by
  rintro ⟨a, ha⟩ ⟨b, hb⟩ ⟨c, hc⟩ hab hbc
  rcases hxa : a.unixTime with _ | x
  · exact absurd hxa ha
  rcases hxb : b.unixTime with _ | y
  · exact absurd hxb hb
  rcases hxc : c.unixTime with _ | z
  · exact absurd hxc hc
  simp only [rowLe, hxa, hxb, hxc, decide_eq_true_eq] at hab hbc ⊢
  omega

theorem rowLeD_total : ∀ a b : {r : FeedRow // r.unixTime ≠ none},
    rowLe a.val b.val || rowLe b.val a.val := by
  rintro ⟨a, ha⟩ ⟨b, hb⟩
  rcases hxa : a.unixTime with _ | x
  · exact absurd hxa ha
  rcases hxb : b.unixTime with _ | y
  · exact absurd hxb hb
  simp only [rowLe, hxa, hxb]
  rcases Int.le_total y x with h | h <;> simp [h]

/-- When every row has a defined (non-`NaN`) timestamp, the sort orders
rows non-increasing by timestamp and is stable: filtering the output to
any fixed timestamp yields exactly the input's rows with that
timestamp, in input order. -/
theorem sortRows_sorted_stable (l : List FeedRow)
    (hdef : ∀ r ∈ l, r.unixTime ≠ none) :
    rowsSortedDesc (sortRows l) ∧
    ∀ t : Int, (sortRows l).filter (fun r => decide (r.unixTime = some t))
      = l.filter (fun r => decide (r.unixTime = some t)) := by
  classical
  let σl : List {r : FeedRow // r.unixTime ≠ none} :=
    l.attach.map (fun x => ⟨x.val, hdef x.val x.property⟩)
  have hmapval : σl.map Subtype.val = l := by
    show (l.attach.map _).map Subtype.val = l
    rw [List.map_map]
    exact List.attach_map_subtype_val l
  have hmerge : (σl.mergeSort (fun a b => rowLe a.val b.val)).map Subtype.val
      = sortRows l := by
    rw [List.map_mergeSort (f := Subtype.val) (s := rowLe)
      (fun a _ b _ => rfl), hmapval]
    rfl
  constructor
  · have hsorted' := List.sorted_mergeSort rowLeD_trans rowLeD_total σl
    have hmapped := List.Pairwise.map (R := fun a b => rowLe a.val b.val)
      (S := fun a b => tsGe a b = true) Subtype.val
      (fun a b hab => by
        rcases hxa : a.val.unixTime with _ | x
        · exact absurd hxa a.property
        rcases hxb : b.val.unixTime with _ | y
        · exact absurd hxb b.property
        simp only [rowLe, hxa, hxb] at hab
        simp only [tsGe, hxa, hxb]
        exact hab) hsorted'
    rw [hmerge] at hmapped
    exact hmapped
  · intro t
    set p : FeedRow → Bool := fun r => decide (r.unixTime = some t) with hp
    set p' : {r : FeedRow // r.unixTime ≠ none} → Bool :=
      fun a => p a.val with hp'
    have hcsub : List.Sublist (σl.filter p') σl := List.filter_sublist σl
    have hcpw : (σl.filter p').Pairwise
        (fun a b => rowLe a.val b.val = true) := by
      apply List.pairwise_of_forall_mem_list
      intro a ha b hb
      have hat : a.val.unixTime = some t := by
        have := (List.mem_filter.mp ha).2
        simpa [hp', hp] using this
      have hbt : b.val.unixTime = some t := by
        have := (List.mem_filter.mp hb).2
        simpa [hp', hp] using this
      simp [rowLe, hat, hbt]
    have hstab := List.sublist_mergeSort rowLeD_trans rowLeD_total hcpw hcsub
    have hcself : (σl.filter p').filter p' = σl.filter p' :=
      List.filter_eq_self.mpr (fun a ha => (List.mem_filter.mp ha).2)
    have happ : List.Sublist (σl.filter p')
        ((σl.mergeSort (fun a b => rowLe a.val b.val)).filter p') := by
      have := hstab.filter p'
      rwa [hcself] at this
    have hperm : ((σl.mergeSort (fun a b => rowLe a.val b.val)).filter p').Perm
        (σl.filter p') :=
      (List.mergeSort_perm σl _).filter p'
    have heq : σl.filter p'
        = (σl.mergeSort (fun a b => rowLe a.val b.val)).filter p' :=
      happ.eq_of_length hperm.length_eq.symm
    have hfin := congrArg (List.map Subtype.val) heq
    have hp2 : p' = p ∘ Subtype.val := rfl
    rw [hp2, ← List.filter_map, ← List.filter_map, hmapval, hmerge] at hfin
    exact hfin.symm

/-- C3, amended.  For feeds in which every entry's publish date parses
(no `NaN` timestamps), the output of the normalizer is the stable
descending-timestamp sort of the rows in input order: it is sorted
non-increasing by timestamp, and rows with any fixed timestamp appear
exactly as in the input order. -/
theorem parseRSS_sorted_amended (jsDate : JsDate) (entries : List RawEntry)
    (l : List FeedRow) (hmap : mapEntries jsDate entries = .ok l)
    (hdef : ∀ r ∈ l, r.unixTime ≠ none) :
    parseRSSRows jsDate entries = .ok (sortRows l) ∧
    rowsSortedDesc (sortRows l) ∧
    ∀ t : Int, (sortRows l).filter (fun r => decide (r.unixTime = some t))
      = l.filter (fun r => decide (r.unixTime = some t)) :=
  ⟨by unfold parseRSSRows; rw [hmap]; rfl,
   (sortRows_sorted_stable l hdef).1,
   (sortRows_sorted_stable l hdef).2⟩

/-- C3, counterexample to the claim as stated: a feed containing an
entry with an unparsable publish date still produces output (see C2),
and that output is not sorted non-increasing by timestamp — the second
row's timestamp is `NaN`, which is not less than or equal to
anything. -/
theorem parseRSS_sorted_claim_cex :
    parseRSSRows (fun s => if s = "D1 UTC".data then some 2000000 else none)
        [⟨some "a.com".data, some "T - S".data, some "D1".data⟩,
         ⟨some "b.com".data, some "T - S".data, some "BAD".data⟩]
      = .ok [⟨some 2000, "T".data, "a.com".data⟩,
             ⟨none, "T".data, "b.com".data⟩] ∧
    ¬ rowsSortedDesc [⟨some 2000, "T".data, "a.com".data⟩,
             ⟨none, "T".data, "b.com".data⟩] := by
  constructor
  · have h1 : mapEntries
        (fun s => if s = "D1 UTC".data then some 2000000 else none)
        [⟨some "a.com".data, some "T - S".data, some "D1".data⟩,
         ⟨some "b.com".data, some "T - S".data, some "BAD".data⟩]
        = .ok [⟨some 2000, "T".data, "a.com".data⟩,
               ⟨none, "T".data, "b.com".data⟩] := by decide
    unfold parseRSSRows
    rw [h1]
    show Except.ok (sortRows _) = _
    rw [sortRows_pair]
    simp [rowLe]
  · decide

/-! Classifier and pipeline lemmas (C4-C8, C10). -/

theorem headIs_ne_nil {c : Char} {s : String} (h : headIs c s = true) :
    s ≠ "" := by
  intro hEq
  subst hEq
  simp [headIs] at h

theorem headIs_excl {c c' : Char} {s : String} (h : headIs c s = true)
    (hne : c' ≠ c) : headIs c' s = false := by
  unfold headIs at h ⊢
  simp only [decide_eq_true_eq] at h
  simp only [decide_eq_false_iff_not, h]
  intro hh
  exact hne (Option.some.inj hh).symm

theorem trimChars_cons_ne_nil {c : Char} {rest : List Char}
    (hc : wsChar c = false) : trimChars (c :: rest) ≠ [] := by
  unfold trimChars
  rw [List.dropWhile_cons_of_neg (by simp [hc])]
  intro hcon
  have h2 : List.dropWhile wsChar ((c :: rest).reverse) = [] := by
    rcases hdw : List.dropWhile wsChar ((c :: rest).reverse) with _ | ⟨x, xs⟩
    · rfl
    · rw [hdw] at hcon
      simp at hcon
  have := List.dropWhile_eq_nil_iff.mp h2 c (by simp)
  rw [this] at hc
  cases hc

theorem headIs_marker_of_trim_nil {s : String} (h : jsTrim s = "")
    {c : Char} (hc : wsChar c = false) : headIs c s = false := by
  unfold headIs
  simp only [decide_eq_false_iff_not]
  intro hh
  rcases hd : s.data with _ | ⟨a, rest⟩
  · rw [hd] at hh
    cases hh
  · rw [hd] at hh
    have ha : a = c := Option.some.inj (by simpa using hh)
    subst ha
    have hdat : (jsTrim s).data = trimChars s.data := rfl
    rw [h, hd] at hdat
    exact absurd hdat.symm (trimChars_cons_ne_nil hc)

theorem jsTrim_ne_nil_imp {text : String} (h : jsTrim text ≠ "") :
    text ≠ "" := by
  intro hEq
  subst hEq
  exact h rfl

/-- The resolved mode of an invocation, as a function of the raw input
and the pre-call state. -/
theorem executeSearch_mode (s : AppState) (text : String) (forceNew : Bool)
    (o : Except String String) (hb : s.isSearching = false) :
    (executeSearch s text forceNew o).mode =
      if text = "" then none
      else if headIs '~' text = true then
        (if jsTrim (jsSlice1 text) = "" then none else some SearchMode.general)
      else if (headIs '+' text && !s.conversation.isEmpty &&
          s.isNewsSession) = true then
        (if jsTrim (jsSlice1 text) = "" then none else some SearchMode.merge)
      else if jsTrim text = "" then none
      else if (!s.conversation.isEmpty && !forceNew &&
          s.isNewsSession) = true then some SearchMode.followup
      else some SearchMode.rss := by
  by_cases ht : text = ""
  · simp [executeSearch, ht]
  by_cases hg : headIs '~' text = true
  · have hpm : headIs '+' text = false := headIs_excl hg (by decide)
    by_cases hc : jsTrim (jsSlice1 text) = "" <;>
      simp [executeSearch, mainStep, uiUpdate, applyTopics, mkCall, applyOutcome, ht, hb, hg, hpm, hc]
  · by_cases hM : (headIs '+' text && !s.conversation.isEmpty &&
        s.isNewsSession) = true
    · by_cases hc : jsTrim (jsSlice1 text) = "" <;>
        simp [executeSearch, mainStep, uiUpdate, applyTopics, mkCall, applyOutcome, ht, hb, hg, hM, hc]
    · by_cases hT : jsTrim text = ""
      · simp [executeSearch, mainStep, uiUpdate, applyTopics, mkCall, applyOutcome, ht, hb, hg, hM, hT]
      · by_cases hF : (!s.conversation.isEmpty && !forceNew &&
            s.isNewsSession) = true <;>
          simp [executeSearch, mainStep, uiUpdate, applyTopics, mkCall, applyOutcome, ht, hb, hg, hM, hT, hF]

/-- In the error path the pipeline appends exactly one error message
(id drawn from the pre-await state) and clears the busy lock. -/
theorem mainStep_error (s : AppState) (clean : String) (mode : SearchMode)
    (forceNew : Bool) (m : String) :
    (mainStep s clean mode forceNew (.error m)).final.conversation
      = (mainStep s clean mode forceNew (.error m)).pre.conversation ++
        [⟨(mainStep s clean mode forceNew (.error m)).pre.nextId,
          MsgType.answer, "⚠️ Error: " ++ m, false, none⟩] ∧
    (mainStep s clean mode forceNew (.error m)).final.isSearching = false := by
  cases mode <;> rcases forceNew <;> simp [mainStep, uiUpdate, applyTopics, mkCall, applyOutcome, addMsg]

/-- In the success path the busy lock is cleared as well. -/
theorem mainStep_ok_clears (s : AppState) (clean : String)
    (mode : SearchMode) (forceNew : Bool) (r : String) :
    (mainStep s clean mode forceNew (.ok r)).final.isSearching = false := by
  cases mode <;> rcases forceNew <;> simp [mainStep, uiUpdate, applyTopics, mkCall, applyOutcome, addMsg]

/-- C7, confirmed.  An invocation while the busy lock is held, or whose
input is blank after trimming (also when it is a marker whose remainder
trims to nothing), dispatches no external call and leaves the
conversation, root topic, last query and news-session flag unchanged. -/
theorem executeSearch_noop (s : AppState) (text : String) (forceNew : Bool)
    (outcome : Except String String)
    (h : s.isSearching = true ∨ jsTrim text = "" ∨
      (headIs '~' text = true ∧ jsTrim (jsSlice1 text) = "") ∨
      (headIs '+' text = true ∧ s.conversation ≠ [] ∧
        s.isNewsSession = true ∧ jsTrim (jsSlice1 text) = "")) :
    (executeSearch s text forceNew outcome).call = none ∧
    (executeSearch s text forceNew outcome).final.conversation
      = s.conversation ∧
    (executeSearch s text forceNew outcome).final.rootQuery = s.rootQuery ∧
    (executeSearch s text forceNew outcome).final.lastQuery = s.lastQuery ∧
    (executeSearch s text forceNew outcome).final.isNewsSession
      = s.isNewsSession := by
  by_cases hb : s.isSearching = true
  · simp [executeSearch, hb]
  rcases h with hb' | he | hg | hm
  · exact absurd hb' hb
  · by_cases ht : text = ""
    · simp [executeSearch, ht]
    · have hgm : headIs '~' text = false :=
        headIs_marker_of_trim_nil he (by decide)
      have hpm : headIs '+' text = false :=
        headIs_marker_of_trim_nil he (by decide)
      simp [executeSearch, ht, hb, hgm, hpm, he]
  · have ht := headIs_ne_nil hg.1
    have hpm : headIs '+' text = false := headIs_excl hg.1 (by decide)
    simp [executeSearch, ht, hb, hg.1, hpm, hg.2]
  · have ht := headIs_ne_nil hm.1
    have hgm : headIs '~' text = false := headIs_excl hm.1 (by decide)
    simp [executeSearch, ht, hb, hm.1, hgm, hm.2.1, hm.2.2.1, hm.2.2.2]

/-- Witness for `executeSearch_noop`: a busy-state invocation. -/
theorem executeSearch_noop_witness :
    (executeSearch ⟨[], true, none, none, false, false, 0, ""⟩ "news" false
      (.ok "r")).call = none ∧
    (executeSearch ⟨[], true, none, none, false, false, 0, ""⟩ "news" false
      (.ok "r")).final.conversation = [] ∧
    (executeSearch ⟨[], true, none, none, false, false, 0, ""⟩ "news" false
      (.ok "r")).final.rootQuery = none ∧
    (executeSearch ⟨[], true, none, none, false, false, 0, ""⟩ "news" false
      (.ok "r")).final.lastQuery = none ∧
    (executeSearch ⟨[], true, none, none, false, false, 0, ""⟩ "news" false
      (.ok "r")).final.isNewsSession = false :=
  executeSearch_noop ⟨[], true, none, none, false, false, 0, ""⟩ "news" false
    (.ok "r") (Or.inl rfl)

/-- C10, amended.  For every non-busy session state, a submitted input
beginning with `"~"` whose remainder re-trims to something non-empty is
classified general, with clean query the re-trimmed remainder; general
handling leaves `rootQuery` and `lastQuery` unchanged and requires no
existing summary (the statement holds for every conversation).  A bare
`"~"` (empty remainder) or a busy state is a silent no-op instead. -/
theorem general_mode_amended (s : AppState) (text : String) (forceNew : Bool)
    (o : Except String String) (hb : s.isSearching = false)
    (hg : headIs '~' text = true) (hc : jsTrim (jsSlice1 text) ≠ "") :
    (executeSearch s text forceNew o).mode = some SearchMode.general ∧
    (executeSearch s text forceNew o).clean = jsTrim (jsSlice1 text) ∧
    (executeSearch s text forceNew o).call
      = some (ExtCall.generalCall (jsTrim (jsSlice1 text))) ∧
    (executeSearch s text forceNew o).final.rootQuery = s.rootQuery ∧
    (executeSearch s text forceNew o).final.lastQuery = s.lastQuery := by
  have hpm : headIs '+' text = false := headIs_excl hg (by decide)
  have ht := headIs_ne_nil hg
  rcases o with m | r <;> rcases forceNew <;>
    simp [executeSearch, mainStep, uiUpdate, applyTopics, mkCall,
      applyOutcome, ht, hb, hg, hpm, hc, addMsg]

/-- C10, counterexample to the claim as stated: the input `"~"` has a
trimmed form beginning with the marker, yet no mode is assigned and no
call is dispatched (the remainder is empty after marker removal). -/
theorem general_claim_cex :
    headIs '~' (jsTrim "~") = true ∧
    (executeSearch ⟨[], false, none, none, false, false, 0, ""⟩ "~" false
      (.ok "r")).mode = none ∧
    (executeSearch ⟨[], false, none, none, false, false, 0, ""⟩ "~" false
      (.ok "r")).call = none := by
  refine ⟨by decide, by decide, by decide⟩

/-- Witness for `general_mode_amended`. -/
theorem general_mode_witness :
    (executeSearch ⟨[], false, some "x", some "y", true, false, 3, ""⟩
      "~tell me a joke" false (.ok "r")).mode = some SearchMode.general ∧
    (executeSearch ⟨[], false, some "x", some "y", true, false, 3, ""⟩
      "~tell me a joke" false (.ok "r")).clean
      = jsTrim (jsSlice1 "~tell me a joke") ∧
    (executeSearch ⟨[], false, some "x", some "y", true, false, 3, ""⟩
      "~tell me a joke" false (.ok "r")).call
      = some (ExtCall.generalCall (jsTrim (jsSlice1 "~tell me a joke"))) ∧
    (executeSearch ⟨[], false, some "x", some "y", true, false, 3, ""⟩
      "~tell me a joke" false (.ok "r")).final.rootQuery = some "y" ∧
    (executeSearch ⟨[], false, some "x", some "y", true, false, 3, ""⟩
      "~tell me a joke" false (.ok "r")).final.lastQuery = some "x" :=
  general_mode_amended ⟨[], false, some "x", some "y", true, false, 3, ""⟩
    "~tell me a joke" false (.ok "r") rfl (by decide) (by decide)

/-- C4, amended.  Mode merge is assigned exactly when the submitted
input begins with `"+"`, the conversation is non-empty (any messages,
not necessarily a summary-bearing one), the news-session flag is set,
and the remainder re-trims to something non-empty.  Then the clean
query is the re-trimmed remainder, `lastQuery` becomes
`"<lastQuery> + <clean>"`, and `rootQuery` is unchanged. -/
theorem merge_mode_amended (s : AppState) (text : String) (forceNew : Bool)
    (o : Except String String) (hb : s.isSearching = false) :
    ((executeSearch s text forceNew o).mode = some SearchMode.merge ↔
      (headIs '+' text = true ∧ s.conversation ≠ [] ∧
        s.isNewsSession = true ∧ jsTrim (jsSlice1 text) ≠ "")) ∧
    ((headIs '+' text = true ∧ s.conversation ≠ [] ∧
        s.isNewsSession = true ∧ jsTrim (jsSlice1 text) ≠ "") →
      (executeSearch s text forceNew o).clean = jsTrim (jsSlice1 text) ∧
      (executeSearch s text forceNew o).pre.lastQuery
        = some (jsStr s.lastQuery ++ " + " ++ jsTrim (jsSlice1 text)) ∧
      (executeSearch s text forceNew o).final.lastQuery
        = some (jsStr s.lastQuery ++ " + " ++ jsTrim (jsSlice1 text)) ∧
      (executeSearch s text forceNew o).pre.rootQuery = s.rootQuery ∧
      (executeSearch s text forceNew o).final.rootQuery = s.rootQuery) := by
  constructor
  · constructor
    · intro hmode
      rw [executeSearch_mode s text forceNew o hb] at hmode
      split_ifs at hmode with h1 h2 h3 h4 h5 h6 <;>
        simp_all [List.isEmpty_iff]
    · rintro ⟨hp, hconv, hnews, hc⟩
      have hgm : headIs '~' text = false := headIs_excl hp (by decide)
      have ht := headIs_ne_nil hp
      have hM : (headIs '+' text && !s.conversation.isEmpty &&
          s.isNewsSession) = true := by
        simp [hp, hnews, List.isEmpty_iff, hconv]
      simp [executeSearch, mainStep, uiUpdate, applyTopics, mkCall,
        applyOutcome, ht, hb, hgm, hM, hc]
  · rintro ⟨hp, hconv, hnews, hc⟩
    have hgm : headIs '~' text = false := headIs_excl hp (by decide)
    have ht := headIs_ne_nil hp
    have hM : (headIs '+' text && !s.conversation.isEmpty &&
        s.isNewsSession) = true := by
      simp [hp, hnews, List.isEmpty_iff, hconv]
    rcases o with m | r <;> rcases forceNew <;>
      simp [executeSearch, mainStep, uiUpdate, applyTopics, mkCall,
        applyOutcome, ht, hb, hgm, hM, hc, addMsg]

/-- C4, counterexample to the claim as stated: a conversation whose only
message is an error answer (no summary-bearing message exists) with the
news-session flag set still classifies `"+inflation"` as merge — the
code gates on a non-empty conversation, not on an existing summary. -/
theorem merge_claim_cex :
    (executeSearch
      ⟨[⟨0, MsgType.answer, "⚠️ Error: relay down", false, none⟩], false,
        some "us elections", some "us elections", true, true, 1, ""⟩
      "+inflation" false (.ok "m")).mode = some SearchMode.merge ∧
    (∀ msg ∈ (⟨[⟨0, MsgType.answer, "⚠️ Error: relay down", false, none⟩],
        false, some "us elections", some "us elections", true, true, 1,
        ""⟩ : AppState).conversation, msg.type ≠ MsgType.summary) := by
  refine ⟨by decide, by decide⟩

/-- Witness for `merge_mode_amended`. -/
theorem merge_mode_witness :
    (executeSearch
      ⟨[⟨0, MsgType.summary, "old summary", false, some "📰 us elections"⟩],
        false, some "us elections", some "us elections", true, true, 1, ""⟩
      "+inflation" false (.ok "m")).clean = jsTrim (jsSlice1 "+inflation") ∧
    (executeSearch
      ⟨[⟨0, MsgType.summary, "old summary", false, some "📰 us elections"⟩],
        false, some "us elections", some "us elections", true, true, 1, ""⟩
      "+inflation" false (.ok "m")).pre.lastQuery
      = some (jsStr (some "us elections") ++ " + " ++
          jsTrim (jsSlice1 "+inflation")) ∧
    (executeSearch
      ⟨[⟨0, MsgType.summary, "old summary", false, some "📰 us elections"⟩],
        false, some "us elections", some "us elections", true, true, 1, ""⟩
      "+inflation" false (.ok "m")).final.lastQuery
      = some (jsStr (some "us elections") ++ " + " ++
          jsTrim (jsSlice1 "+inflation")) ∧
    (executeSearch
      ⟨[⟨0, MsgType.summary, "old summary", false, some "📰 us elections"⟩],
        false, some "us elections", some "us elections", true, true, 1, ""⟩
      "+inflation" false (.ok "m")).pre.rootQuery = some "us elections" ∧
    (executeSearch
      ⟨[⟨0, MsgType.summary, "old summary", false, some "📰 us elections"⟩],
        false, some "us elections", some "us elections", true, true, 1, ""⟩
      "+inflation" false (.ok "m")).final.rootQuery = some "us elections" :=
  (merge_mode_amended
    ⟨[⟨0, MsgType.summary, "old summary", false, some "📰 us elections"⟩],
      false, some "us elections", some "us elections", true, true, 1, ""⟩
    "+inflation" false (.ok "m") rfl).2
    ⟨by decide, by decide, rfl, by decide⟩

/-- C5, amended.  Mode followup is assigned exactly when no marker
applies, the input trims to something non-empty, the conversation is
non-empty (not necessarily containing a summary-bearing message),
`forceNew` is false and the news-session flag is set.  The clean query
is the trimmed input; the answering context is the most recent
summary-bearing message's text, silently defaulting to the empty string
when none exists (there is no defensive `NoSummaryContext` failure);
`rootQuery` and `lastQuery` are unchanged. -/
theorem followup_mode_amended (s : AppState) (text : String)
    (forceNew : Bool) (o : Except String String)
    (hb : s.isSearching = false) :
    ((executeSearch s text forceNew o).mode = some SearchMode.followup ↔
      (headIs '~' text = false ∧ headIs '+' text = false ∧
        jsTrim text ≠ "" ∧ s.conversation ≠ [] ∧ forceNew = false ∧
        s.isNewsSession = true)) ∧
    ((headIs '~' text = false ∧ headIs '+' text = false ∧
        jsTrim text ≠ "" ∧ s.conversation ≠ [] ∧ forceNew = false ∧
        s.isNewsSession = true) →
      (executeSearch s text forceNew o).clean = jsTrim text ∧
      (executeSearch s text forceNew o).call
        = some (ExtCall.answerCall (summaryTextOf s.conversation)
            (jsTrim text)) ∧
      (executeSearch s text forceNew o).final.rootQuery = s.rootQuery ∧
      (executeSearch s text forceNew o).final.lastQuery = s.lastQuery) := by
  constructor
  · constructor
    · intro hmode
      rw [executeSearch_mode s text forceNew o hb] at hmode
      split_ifs at hmode with h1 h2 h3 h4 h5 <;>
        simp_all [List.isEmpty_iff]
    · rintro ⟨hgm, hpm, hT, hconv, hfn, hnews⟩
      have ht := jsTrim_ne_nil_imp hT
      have hM : (headIs '+' text && !s.conversation.isEmpty &&
          s.isNewsSession) = false := by simp [hpm]
      have hF : (!s.conversation.isEmpty && !forceNew &&
          s.isNewsSession) = true := by
        simp [hnews, hfn, List.isEmpty_iff, hconv]
      simp [executeSearch, mainStep, uiUpdate, applyTopics, mkCall,
        applyOutcome, ht, hb, hgm, hpm, hM, hF, hT]
  · rintro ⟨hgm, hpm, hT, hconv, hfn, hnews⟩
    have ht := jsTrim_ne_nil_imp hT
    have hM : (headIs '+' text && !s.conversation.isEmpty &&
        s.isNewsSession) = false := by simp [hpm]
    have hF : (!s.conversation.isEmpty && !forceNew &&
        s.isNewsSession) = true := by
      simp [hnews, hfn, List.isEmpty_iff, hconv]
    subst hfn
    rcases o with m | r <;>
      simp [executeSearch, mainStep, uiUpdate, applyTopics, mkCall,
        applyOutcome, ht, hb, hgm, hpm, hM, hF, hT, hconv, hnews, addMsg]

/-- C5, counterexample to the claim as stated: with a conversation
containing only an error answer (no summary-bearing message) in a news
session, a plain question is still classified followup, and the answer
call is dispatched with the empty string as context — no
`NoSummaryContext` failure occurs. -/
theorem followup_claim_cex :
    (executeSearch
      ⟨[⟨0, MsgType.answer, "⚠️ Error: relay down", false, none⟩], false,
        some "us elections", some "us elections", true, true, 1, ""⟩
      "what about turnout" false (.ok "a")).mode
      = some SearchMode.followup ∧
    (executeSearch
      ⟨[⟨0, MsgType.answer, "⚠️ Error: relay down", false, none⟩], false,
        some "us elections", some "us elections", true, true, 1, ""⟩
      "what about turnout" false (.ok "a")).call
      = some (ExtCall.answerCall "" "what about turnout") ∧
    (∀ msg ∈ (⟨[⟨0, MsgType.answer, "⚠️ Error: relay down", false, none⟩],
        false, some "us elections", some "us elections", true, true, 1,
        ""⟩ : AppState).conversation, msg.type ≠ MsgType.summary) := by
  refine ⟨by decide, by decide, by decide⟩

/-- Witness for `followup_mode_amended`. -/
theorem followup_mode_witness :
    (executeSearch
      ⟨[⟨0, MsgType.summary, "the news summary", false,
          some "📰 us elections"⟩], false, some "us elections",
        some "us elections", true, true, 1, ""⟩
      "what about turnout" false (.ok "a")).clean
      = jsTrim "what about turnout" ∧
    (executeSearch
      ⟨[⟨0, MsgType.summary, "the news summary", false,
          some "📰 us elections"⟩], false, some "us elections",
        some "us elections", true, true, 1, ""⟩
      "what about turnout" false (.ok "a")).call
      = some (ExtCall.answerCall
          (summaryTextOf [⟨0, MsgType.summary, "the news summary", false,
            some "📰 us elections"⟩]) (jsTrim "what about turnout")) ∧
    (executeSearch
      ⟨[⟨0, MsgType.summary, "the news summary", false,
          some "📰 us elections"⟩], false, some "us elections",
        some "us elections", true, true, 1, ""⟩
      "what about turnout" false (.ok "a")).final.rootQuery
      = some "us elections" ∧
    (executeSearch
      ⟨[⟨0, MsgType.summary, "the news summary", false,
          some "📰 us elections"⟩], false, some "us elections",
        some "us elections", true, true, 1, ""⟩
      "what about turnout" false (.ok "a")).final.lastQuery
      = some "us elections" :=
  (followup_mode_amended
    ⟨[⟨0, MsgType.summary, "the news summary", false,
        some "📰 us elections"⟩], false, some "us elections",
      some "us elections", true, true, 1, ""⟩
    "what about turnout" false (.ok "a") rfl).2
    ⟨by decide, by decide, by decide, by decide, rfl, rfl⟩

/-- The conditions implied by an invocation resolving to rss mode. -/
theorem mode_rss_conditions (s : AppState) (text : String) (forceNew : Bool)
    (o : Except String String) (hb : s.isSearching = false)
    (hmode : (executeSearch s text forceNew o).mode = some SearchMode.rss) :
    text ≠ "" ∧ headIs '~' text = false ∧
    (headIs '+' text && !s.conversation.isEmpty && s.isNewsSession) = false ∧
    jsTrim text ≠ "" ∧
    (!s.conversation.isEmpty && !forceNew && s.isNewsSession) = false := by
  rw [executeSearch_mode s text forceNew o hb] at hmode
  by_cases h1 : text = ""
  · rw [if_pos h1] at hmode
    cases hmode
  rw [if_neg h1] at hmode
  by_cases h2 : headIs '~' text = true
  · rw [if_pos h2] at hmode
    by_cases h3 : jsTrim (jsSlice1 text) = "" <;>
      simp [h3] at hmode
  rw [if_neg h2] at hmode
  by_cases h4 : (headIs '+' text && !s.conversation.isEmpty &&
      s.isNewsSession) = true
  · rw [if_pos h4] at hmode
    by_cases h5 : jsTrim (jsSlice1 text) = "" <;>
      simp [h5] at hmode
  rw [if_neg h4] at hmode
  by_cases h6 : jsTrim text = ""
  · rw [if_pos h6] at hmode
    cases hmode
  rw [if_neg h6] at hmode
  by_cases h7 : (!s.conversation.isEmpty && !forceNew &&
      s.isNewsSession) = true
  · rw [if_pos h7] at hmode
    cases hmode
  exact ⟨h1, by simpa using h2, by simpa using h4, h6, by simpa using h7⟩

/-- C6, confirmed.  An rss-mode refresh (`forceNew = true`) does not
clear the conversation before the fetch and, on success, replaces the
entire message sequence with exactly one result message; an rss-mode
new topic (`forceNew = false`) clears the message sequence before the
fetch is dispatched and, on success, the single result message is the
whole conversation. -/
theorem rss_mode_confirmed (s : AppState) (text : String)
    (o : Except String String) (r : String) :
    (((executeSearch s text true o).mode = some SearchMode.rss ∧
        o = .ok r) →
      (executeSearch s text true o).pre.conversation = s.conversation ∧
      (executeSearch s text true o).final.conversation
        = [⟨s.nextId, MsgType.summary, r, false,
            some ("📰 " ++ jsTrim text)⟩]) ∧
    ((executeSearch s text false o).mode = some SearchMode.rss →
      (executeSearch s text false o).pre.conversation = [] ∧
      (o = .ok r →
        (executeSearch s text false o).final.conversation
          = [⟨s.nextId, MsgType.summary, r, false,
              some ("📰 " ++ jsTrim text)⟩])) := by
  constructor
  · rintro ⟨hmode, rfl⟩
    by_cases hb : s.isSearching = true
    · simp [executeSearch, hb] at hmode
    have hb' : s.isSearching = false := by simpa using hb
    obtain ⟨h1, hg, hM, h4, hF⟩ :=
      mode_rss_conditions s text true _ hb' hmode
    simp [executeSearch, mainStep, uiUpdate, applyTopics, mkCall,
      applyOutcome, h1, hb', hg, hM, h4, hF]
  · intro hmode
    by_cases hb : s.isSearching = true
    · simp [executeSearch, hb] at hmode
    have hb' : s.isSearching = false := by simpa using hb
    obtain ⟨h1, hg, hM, h4, hF⟩ :=
      mode_rss_conditions s text false _ hb' hmode
    have hF' : ¬(s.conversation ≠ [] ∧ s.isNewsSession = true) := by
      rintro ⟨hcv, hnw⟩
      simp [List.isEmpty_iff, hcv, hnw] at hF
    constructor
    · simp [executeSearch, mainStep, uiUpdate, applyTopics, mkCall,
        applyOutcome, h1, hb', hg, hM, h4, hF']
    · rintro rfl
      simp [executeSearch, mainStep, uiUpdate, applyTopics, mkCall,
        applyOutcome, h1, hb', hg, hM, h4, hF']

/-- Witness for `rss_mode_confirmed`: a refresh over an existing
summary replaces it; a fresh new-topic query starts from a cleared
conversation. -/
theorem rss_mode_witness :
    (executeSearch
      ⟨[⟨0, MsgType.summary, "old", false, some "📰 us elections"⟩], false,
        some "us elections", some "us elections", true, true, 1, ""⟩
      "us elections" true (.ok "ns")).final.conversation
      = [⟨1, MsgType.summary, "ns", false,
          some ("📰 " ++ jsTrim "us elections")⟩] ∧
    (executeSearch ⟨[], false, none, none, false, false, 0, ""⟩
      "us elections" false (.ok "ns")).pre.conversation = [] :=
  ⟨((rss_mode_confirmed
      ⟨[⟨0, MsgType.summary, "old", false, some "📰 us elections"⟩], false,
        some "us elections", some "us elections", true, true, 1, ""⟩
      "us elections" (.ok "ns") "ns").1 ⟨by decide, rfl⟩).2,
   ((rss_mode_confirmed ⟨[], false, none, none, false, false, 0, ""⟩
      "us elections" (.ok "ns") "ns").2 (by decide)).1⟩

/-- C8, confirmed.  Whenever a pipeline is actually dispatched, a
failing external section is caught inside the pipeline: exactly one
error message (text `"⚠️ Error: <message>"`) is appended to the
conversation as it stood before the await, nothing is re-thrown, and
the busy lock is cleared; on the success path the busy lock is cleared
as well. -/
theorem pipeline_failure_confirmed (s : AppState) (text : String)
    (forceNew : Bool) (m r : String) :
    ((executeSearch s text forceNew (.error m)).call ≠ none →
      (executeSearch s text forceNew (.error m)).final.conversation
        = (executeSearch s text forceNew (.error m)).pre.conversation ++
          [⟨(executeSearch s text forceNew (.error m)).pre.nextId,
            MsgType.answer, "⚠️ Error: " ++ m, false, none⟩] ∧
      (executeSearch s text forceNew (.error m)).final.isSearching
        = false) ∧
    ((executeSearch s text forceNew (.ok r)).call ≠ none →
      (executeSearch s text forceNew (.ok r)).final.isSearching = false) := by
  constructor
  · intro hcall
    simp only [executeSearch] at hcall ⊢
    split at hcall
    · exact absurd rfl hcall
    rename_i h0
    rw [if_neg h0]
    split at hcall <;> rename_i hmark
    · rw [if_pos hmark]
      split at hcall
      · exact absurd rfl hcall
      rename_i hcl
      rw [if_neg hcl]
      exact mainStep_error _ _ _ _ _
    · rw [if_neg hmark]
      split at hcall
      · exact absurd rfl hcall
      rename_i hcl
      rw [if_neg hcl]
      exact mainStep_error _ _ _ _ _
  · intro hcall
    simp only [executeSearch] at hcall ⊢
    split at hcall
    · exact absurd rfl hcall
    rename_i h0
    rw [if_neg h0]
    split at hcall <;> rename_i hmark
    · rw [if_pos hmark]
      split at hcall
      · exact absurd rfl hcall
      rename_i hcl
      rw [if_neg hcl]
      exact mainStep_ok_clears _ _ _ _ _
    · rw [if_neg hmark]
      split at hcall
      · exact absurd rfl hcall
      rename_i hcl
      rw [if_neg hcl]
      exact mainStep_ok_clears _ _ _ _ _

/-- Witness for `pipeline_failure_confirmed`. -/
theorem pipeline_failure_witness :
    ((executeSearch ⟨[], false, none, none, false, false, 0, ""⟩ "news"
        false (.error "boom")).final.conversation
      = (executeSearch ⟨[], false, none, none, false, false, 0, ""⟩ "news"
          false (.error "boom")).pre.conversation ++
        [⟨(executeSearch ⟨[], false, none, none, false, false, 0, ""⟩
            "news" false (.error "boom")).pre.nextId,
          MsgType.answer, "⚠️ Error: " ++ "boom", false, none⟩] ∧
      (executeSearch ⟨[], false, none, none, false, false, 0, ""⟩ "news"
        false (.error "boom")).final.isSearching = false) ∧
    (executeSearch ⟨[], false, none, none, false, false, 0, ""⟩ "news"
      false (.ok "r")).final.isSearching = false :=
  ⟨(pipeline_failure_confirmed ⟨[], false, none, none, false, false, 0, ""⟩
      "news" false "boom" "r").1 (by decide),
   (pipeline_failure_confirmed ⟨[], false, none, none, false, false, 0, ""⟩
      "news" false "boom" "r").2 (by decide)⟩

/-- Witness for `parseRSS_sorted_amended`: a three-entry feed with
timestamps 5, 5, 1 (two ties in input order). -/
theorem parseRSS_sorted_witness :
    parseRSSRows
        (fun s => if s = "A UTC".data then some 5000
          else if s = "B UTC".data then some 5500
          else if s = "C UTC".data then some 1000 else none)
        [⟨some "u1".data, some "x".data, some "A".data⟩,
         ⟨some "u2".data, some "y".data, some "B".data⟩,
         ⟨some "u3".data, some "z".data, some "C".data⟩]
      = .ok (sortRows [⟨some 5, [], "u1".data⟩, ⟨some 5, [], "u2".data⟩,
          ⟨some 1, [], "u3".data⟩]) ∧
    rowsSortedDesc (sortRows [⟨some 5, [], "u1".data⟩,
        ⟨some 5, [], "u2".data⟩, ⟨some 1, [], "u3".data⟩]) ∧
    (sortRows [⟨some 5, [], "u1".data⟩, ⟨some 5, [], "u2".data⟩,
        ⟨some 1, [], "u3".data⟩]).filter
        (fun r => decide (r.unixTime = some 5))
      = [⟨some 5, [], "u1".data⟩, ⟨some 5, [], "u2".data⟩,
         ⟨some 1, [], "u3".data⟩].filter
        (fun r => decide (r.unixTime = some 5)) := by
  have h := parseRSS_sorted_amended
    (fun s => if s = "A UTC".data then some 5000
      else if s = "B UTC".data then some 5500
      else if s = "C UTC".data then some 1000 else none)
    [⟨some "u1".data, some "x".data, some "A".data⟩,
     ⟨some "u2".data, some "y".data, some "B".data⟩,
     ⟨some "u3".data, some "z".data, some "C".data⟩]
    [⟨some 5, [], "u1".data⟩, ⟨some 5, [], "u2".data⟩,
     ⟨some 1, [], "u3".data⟩]
    (by decide) (by decide)
  exact ⟨h.1, h.2.1, h.2.2 5⟩

end Air
